import Mathlib

/-!
Verification of `overnight_returns.py`.

Shallow embedding of the core of `overnight_returns.py`:

* `get_most_recent_5pm_ct` (time-boundary resolution, lines 23-31),
* `price_at_5pm_ct` (tiered price lookup, lines 34-67),
* `current_price` (lines 70-78), `ticker_name` (lines 81-92),
* the per-ticker return computation of `main` (lines 270-284).

Instants are modelled as integers: seconds since the Unix epoch
(1970-01-01 00:00:00 UTC), at one-second granularity (the script zeroes
`minute`, `second` and `microsecond` on the candidate boundary; the pandas
`Timestamp.now` value carries no nanoseconds beyond microseconds).

The America/Chicago timezone is embedded from the tz database rules in
effect since 2007 (the rules relevant to every run of this script):
standard offset UTC-6 (CST), daylight offset UTC-5 (CDT), daylight time
from the second Sunday of March at 02:00 local standard time (08:00 UTC)
until the first Sunday of November at 02:00 local daylight time
(07:00 UTC).

Library semantics embedded from pandas/pytz:

* tz-aware `Timestamp`s compare and subtract by absolute instant;
  `timedelta(days=1)` is 24 absolute hours;
* `Timestamp.replace` on a pytz-aware timestamp re-localizes the replaced
  wall-clock fields with the zone's rules (pandas GH#18319), so the
  candidate `today_5pm` carries the UTC offset in effect at 17:00 of that
  wall date (17:00 is never ambiguous nor skipped in America/Chicago);
* DataFrame boolean-mask filtering preserves row order, `iloc[-1]` /
  `iloc[-2]` are positional from the end;
* `tz_convert` preserves absolute instants; `tz_localize(None)` drops the
  timezone keeping the currently displayed wall-clock values.
-/

namespace OvernightReturns

/-! ## Civil calendar (Howard Hinnant's algorithms, floor division) -/

/-- Day number (days since 1970-01-01) of a proleptic-Gregorian civil date. -/
def days_from_civil (y m d : Int) : Int :=
  let y2 : Int := if m ≤ 2 then y - 1 else y
  let era : Int := y2 / 400
  let yoe : Int := y2 - era * 400
  let mp : Int := if 2 < m then m - 3 else m + 9
  let doy : Int := (153 * mp + 2) / 5 + d - 1
  let doe : Int := yoe * 365 + yoe / 4 - yoe / 100 + doy
  era * 146097 + doe - 719468

/-- Calendar year containing the given day number. -/
def yearOf (z0 : Int) : Int :=
  let z : Int := z0 + 719468
  let era : Int := z / 146097
  let doe : Int := z - era * 146097
  let yoe : Int :=
    (doe - doe / 1460 + doe / 36524 - doe / 146096) / 365
  let y : Int := yoe + era * 400
  let doy : Int := doe - (365 * yoe + yoe / 4 - yoe / 100)
  let mp : Int := (5 * doy + 2) / 153
  let m : Int := mp + (if mp < 10 then 3 else -9)
  if m ≤ 2 then y + 1 else y

/-- First Sunday on or after the given day number (1970-01-01 was a Thursday). -/
def firstSundayOnOrAfter (z : Int) : Int :=
  z + (7 - (z + 4) % 7) % 7

/-- Day number of the second Sunday of March of year `y`. -/
def secondSundayMarch (y : Int) : Int :=
  firstSundayOnOrAfter (days_from_civil y 3 1) + 7

/-- Day number of the first Sunday of November of year `y`. -/
def firstSundayNovember (y : Int) : Int :=
  firstSundayOnOrAfter (days_from_civil y 11 1)

/-! ## America/Chicago -/

/-- UTC instant at which daylight saving time starts in year `y`
(second Sunday of March, 02:00 CST = 08:00 UTC). -/
def dstStartUTC (y : Int) : Int := secondSundayMarch y * 86400 + 28800

/-- UTC instant at which daylight saving time ends in year `y`
(first Sunday of November, 02:00 CDT = 07:00 UTC). -/
def dstEndUTC (y : Int) : Int := firstSundayNovember y * 86400 + 25200

/-- UTC offset (in seconds) of America/Chicago at the given UTC instant:
-18000 (CDT) during daylight saving time, -21600 (CST) otherwise. -/
def chicagoOffset (t : Int) : Int :=
  if dstStartUTC (yearOf (t / 86400)) ≤ t ∧ t < dstEndUTC (yearOf (t / 86400))
  then -18000 else -21600

/-- UTC offset of America/Chicago in effect at 17:00 wall-clock time of the
given wall date (17:00 is CDT exactly on the days from the second Sunday of
March through the day before the first Sunday of November). -/
def offsetAt5pm (d : Int) : Int :=
  if secondSundayMarch (yearOf d) ≤ d ∧ d < firstSundayNovember (yearOf d)
  then -18000 else -21600

/-- The UTC instant of 17:00:00 America/Chicago wall-clock time on wall
date `d` (the value of `now_ct.replace(hour=17, minute=0, second=0,
microsecond=0)` when `now_ct` has wall date `d`). -/
def mk5pm (d : Int) : Int := d * 86400 + 61200 - offsetAt5pm d

/-- Central wall-clock date (day number) of an instant. -/
def wallDay (t : Int) : Int := (t + chicagoOffset t) / 86400

/-- Central wall-clock second-of-day of an instant. -/
def ctWallSecOfDay (t : Int) : Int := (t + chicagoOffset t) % 86400

/-- Embedding of `get_most_recent_5pm_ct` (lines 23-31), with the ambient
clock `pd.Timestamp.now(tz=CENTRAL)` made an explicit argument `now`
(a UTC instant).  `today_5pm` is `now`'s Central wall date at 17:00,
re-localized; `timedelta(days=1)` is 24 absolute hours. -/
def get_most_recent_5pm_ct (now : Int) : Int :=
  if mk5pm (wallDay now) ≤ now then mk5pm (wallDay now)
  else mk5pm (wallDay now) - 86400

/-! ## Time lemmas -/

theorem chicagoOffset_cases (t : Int) :
    chicagoOffset t = -18000 ∨ chicagoOffset t = -21600 := by
  unfold chicagoOffset
  split
  · exact Or.inl rfl
  · exact Or.inr rfl

theorem offsetAt5pm_cases (d : Int) :
    offsetAt5pm d = -18000 ∨ offsetAt5pm d = -21600 := by
  unfold offsetAt5pm
  split
  · exact Or.inl rfl
  · exact Or.inr rfl

/-- At 17:00 (and one second before it) on wall date `d`, the offset of the
zone at that instant agrees with the offset used to localize 17:00 of `d`:
17:00 never falls inside a transition window of America/Chicago. -/
theorem chicagoOffset_mk5pm_near (d t : Int)
    (ht : t = mk5pm d ∨ t = mk5pm d - 1) :
    chicagoOffset t = offsetAt5pm d := by
  have hoff := offsetAt5pm_cases d
  have hdiv : t / 86400 = d := by
    rcases ht with h | h <;> rcases hoff with h2 | h2 <;>
      (subst h; simp only [mk5pm, h2]; omega)
  simp only [mk5pm, offsetAt5pm] at ht hoff ⊢
  simp only [chicagoOffset, hdiv, dstStartUTC, dstEndUTC]
  rcases ht with h | h <;> (subst h; split_ifs <;> omega)

theorem wallDay_mk5pm (d : Int) : wallDay (mk5pm d) = d := by
  have h := chicagoOffset_mk5pm_near d (mk5pm d) (Or.inl rfl)
  have hoff := offsetAt5pm_cases d
  unfold wallDay
  rw [h]
  simp only [mk5pm]
  omega

theorem wallDay_mk5pm_sub_one (d : Int) : wallDay (mk5pm d - 1) = d := by
  have h := chicagoOffset_mk5pm_near d (mk5pm d - 1) (Or.inr rfl)
  have hoff := offsetAt5pm_cases d
  unfold wallDay
  rw [h]
  simp only [mk5pm]
  omega

/-- The two possible outcomes of the resolver, with the branch condition. -/
theorem get_most_recent_5pm_ct_branches (now : Int) :
    (get_most_recent_5pm_ct now = mk5pm (wallDay now) ∧ mk5pm (wallDay now) ≤ now) ∨
      (get_most_recent_5pm_ct now = mk5pm (wallDay now) - 86400 ∧
        now < mk5pm (wallDay now)) := by
  unfold get_most_recent_5pm_ct
  split_ifs with h
  · exact Or.inl ⟨rfl, h⟩
  · exact Or.inr ⟨rfl, by omega⟩

theorem wallDay_bounds (now : Int) :
    wallDay now * 86400 ≤ now + chicagoOffset now ∧
      now + chicagoOffset now < wallDay now * 86400 + 86400 := by
  unfold wallDay
  omega

/-- C1 (amended): the returned instant is always ≤ `now` and is either
today's localized 17:00 candidate or that candidate minus exactly 24
absolute hours; whenever the zone offset at the returned instant agrees
with the offset used to localize today's candidate (i.e. no DST transition
interferes), the returned instant's Central wall clock is exactly
17:00:00. -/
theorem C1_boundary_resolution (now : Int) :
    get_most_recent_5pm_ct now ≤ now ∧
      (get_most_recent_5pm_ct now = mk5pm (wallDay now) ∨
        get_most_recent_5pm_ct now = mk5pm (wallDay now) - 86400) ∧
      (chicagoOffset (get_most_recent_5pm_ct now) = offsetAt5pm (wallDay now) →
        ctWallSecOfDay (get_most_recent_5pm_ct now) = 61200) := by
  have hkey := get_most_recent_5pm_ct_branches now
  have hb := wallDay_bounds now
  have hoffn := chicagoOffset_cases now
  have hoff5 := offsetAt5pm_cases (wallDay now)
  refine ⟨?_, ?_, ?_⟩
  · rcases hkey with ⟨he, hc⟩ | ⟨he, hc⟩ <;> simp only [mk5pm] at he hc <;> omega
  · rcases hkey with ⟨he, _⟩ | ⟨he, _⟩
    · exact Or.inl he
    · exact Or.inr he
  · intro hsame
    unfold ctWallSecOfDay
    rw [hsame]
    rcases hkey with ⟨he, _⟩ | ⟨he, _⟩ <;> rw [he] <;> simp only [mk5pm] <;> omega

/-- Witness for `C1_boundary_resolution` at 2025-06-15 08:00:00 UTC
(03:00 CDT): the resolver returns 2025-06-14 17:00 CDT, whose Central
wall-clock second-of-day is 61200 = 17:00:00. -/
theorem C1_boundary_resolution_witness :
    chicagoOffset
        (get_most_recent_5pm_ct (days_from_civil 2025 6 15 * 86400 + 28800)) =
      offsetAt5pm (wallDay (days_from_civil 2025 6 15 * 86400 + 28800)) ∧
      ctWallSecOfDay
          (get_most_recent_5pm_ct (days_from_civil 2025 6 15 * 86400 + 28800)) =
        61200 :=
  ⟨by decide, (C1_boundary_resolution
      (days_from_civil 2025 6 15 * 86400 + 28800)).2.2 (by decide)⟩

/-- C1 counterexample: at `now` = 2025-03-09 15:00:00 UTC (10:00 CDT, the
morning after the spring-forward transition), the resolver returns
2025-03-08 22:00:00 UTC, whose Central wall clock is 16:00:00, not
17:00:00 — the claim that the result always falls exactly on a 5:00 PM
Central wall-clock boundary is false. -/
theorem C1_boundary_resolution_cex :
    ctWallSecOfDay
        (get_most_recent_5pm_ct (days_from_civil 2025 3 9 * 86400 + 54000)) =
      57600 ∧ (57600 : Int) ≠ 61200 := by
  constructor
  · decide
  · decide

/-- C7 (amended): for every wall date `d`, at exactly the 17:00 boundary
instant the resolver returns that instant itself (the boundary is
inclusive), and one second before the boundary it returns the boundary
minus exactly 24 absolute hours (which is yesterday's 17:00 boundary
exactly when the 17:00 offset is the same on both wall dates). -/
theorem C7_boundary_inclusive (d : Int) :
    get_most_recent_5pm_ct (mk5pm d) = mk5pm d ∧
      get_most_recent_5pm_ct (mk5pm d - 1) = mk5pm d - 86400 := by
  constructor
  · unfold get_most_recent_5pm_ct
    rw [wallDay_mk5pm]
    split_ifs with h
    · rfl
    · omega
  · unfold get_most_recent_5pm_ct
    rw [wallDay_mk5pm_sub_one]
    split_ifs with h
    · omega
    · rfl

/-- C7 counterexample: one second before 17:00 CDT on 2025-03-09 (the
spring-forward day) the resolver does NOT return yesterday's 17:00
boundary: it returns 2025-03-08 22:00 UTC (16:00 CST wall clock), while
yesterday's boundary `mk5pm (2025-03-08)` is 2025-03-08 23:00 UTC. -/
theorem C7_boundary_inclusive_cex :
    get_most_recent_5pm_ct (mk5pm (days_from_civil 2025 3 9) - 1) ≠
      mk5pm (days_from_civil 2025 3 9 - 1) := by
  decide

/-- C8 (amended): shifting `now` by 24 hours shifts the resolved boundary
by exactly 24 hours, provided the zone offset at `now` and at `now + 24h`
agree and the 17:00 offset is the same on the two consecutive wall dates
(both conditions hold except across a DST transition). -/
theorem C8_shift_24h (now : Int)
    (hoff : chicagoOffset (now + 86400) = chicagoOffset now)
    (h5 : offsetAt5pm (wallDay now + 1) = offsetAt5pm (wallDay now)) :
    get_most_recent_5pm_ct (now + 86400) = get_most_recent_5pm_ct now + 86400 := by
  have hwd : wallDay (now + 86400) = wallDay now + 1 := by
    unfold wallDay
    rw [hoff]
    omega
  have hmk : mk5pm (wallDay now + 1) = mk5pm (wallDay now) + 86400 := by
    simp only [mk5pm, h5]
    ring
  unfold get_most_recent_5pm_ct
  rw [hwd, hmk]
  split_ifs with h1 h2 <;> omega

/-- Witness for `C8_shift_24h` at 2025-06-15 00:00:00 UTC. -/
theorem C8_shift_24h_witness :
    get_most_recent_5pm_ct (days_from_civil 2025 6 15 * 86400 + 86400) =
      get_most_recent_5pm_ct (days_from_civil 2025 6 15 * 86400) + 86400 :=
  C8_shift_24h (days_from_civil 2025 6 15 * 86400) (by decide) (by decide)

/-- C8 counterexample: with `now` = 2025-03-08 16:00:00 UTC (10:00 CST, the
day before the spring-forward transition), `resolve(now + 24h)` is
2025-03-08 22:00 UTC while `resolve(now) + 24h` is 2025-03-08 23:00 UTC:
the two boundaries differ by 23 hours, not one day. -/
theorem C8_shift_24h_cex :
    get_most_recent_5pm_ct (days_from_civil 2025 3 8 * 86400 + 57600 + 86400) ≠
      get_most_recent_5pm_ct (days_from_civil 2025 3 8 * 86400 + 57600) + 86400 := by
  decide

/-! ## Price lookup (`price_at_5pm_ct`, lines 34-67)

An hourly history is a list of (timestamp, Close) rows in the order the
provider delivered them.  A pandas `DatetimeIndex` is either tz-aware —
modelled by the displayed wall-clock values together with the display
offset `off`, so that the absolute instant of a row is `wall - off` — or
tz-naive, in which case only raw wall values exist and the zone they were
expressed in is not recoverable from the data.  A fetch that raises is
`Except.error ()`; yfinance prices are rationals here (see the rounding
note at `roundHalfEven`). -/

/-- An hourly price series as returned by `yf.Ticker(...).history(interval="1h")`. -/
inductive HSeries : Type
  | aware (off : Int) (rows : List (Int × ℚ))
  | naive (rows : List (Int × ℚ))

/-- Lines 50-52: if the index is tz-aware it is converted to UTC
(`tz_convert(pytz.UTC)`, which re-displays each row at its absolute
instant `wall - off`) and the timezone is then dropped
(`tz_localize(None)`); a tz-naive index is left untouched. -/
def normalizeRows : HSeries → List (Int × ℚ)
  | .aware off rows => rows.map (fun r => (r.1 - off, r.2))
  | .naive rows => rows

/-- The absolute instants the series' rows actually denote: for an aware
series, `wall - off`; for a naive series the zone is not stored in the
data, so the instants depend on the offset `noff` of the zone its wall
values were expressed in. -/
def trueRows : HSeries → Int → List (Int × ℚ)
  | .aware off rows, _ => rows.map (fun r => (r.1 - off, r.2))
  | .naive rows, noff => rows.map (fun r => (r.1 - noff, r.2))

/-- Lines 39-40: `ref_time.astimezone(pytz.UTC)` preserves the absolute
instant and `replace(tzinfo=None)` then yields the UTC wall value, which
equals the instant itself. -/
def ref_naive_utc (t : Int) : Int := t

/-- Lines 53-56: the rows at or before the reference value, in order;
the last one (i.e. `before.iloc[-1]`) if any. -/
def lastAtOrBefore (rows : List (Int × ℚ)) (ref : Int) : Option (Int × ℚ) :=
  (rows.filter (fun r => decide (r.1 ≤ ref))).getLast?

/-- Lines 43-46: a raised exception during the hourly fetch is replaced by
an empty DataFrame. -/
def hourlyRows : Except Unit HSeries → List (Int × ℚ)
  | .ok s => normalizeRows s
  | .error _ => []

/-- Embedding of `price_at_5pm_ct` (lines 34-67), with the two provider
fetches made explicit arguments.  `daily` is the `period="5d"` daily-close
list of the fallback tier (lines 59-67); a raised exception there returns
`None` directly, and fewer than 2 daily bars also give `None`; otherwise
the second-to-last daily close (`iloc[-2]`) is returned. -/
def price_at_5pm_ct (hourly : Except Unit HSeries)
    (daily : Except Unit (List ℚ)) (ref : Int) : Option ℚ :=
  match lastAtOrBefore (hourlyRows hourly) (ref_naive_utc ref) with
  | some r => some r.2
  | none =>
    match daily with
    | .error _ => none
    | .ok ds => if ds.length < 2 then none else ds[ds.length - 2]?

/-- The closing prices the fine tier's comparison selects (the rows of the
normalized frame passing `hist.index <= ref_naive`), in order. -/
def selectedCloses (s : HSeries) (ref : Int) : List ℚ :=
  ((normalizeRows s).filter (fun r => decide (r.1 ≤ ref))).map Prod.snd

/-- The closing prices whose denoted absolute instant is really at or
before the reference instant, given the zone offset `noff` in which a
naive series' wall values were expressed. -/
def trueSelectedCloses (s : HSeries) (noff ref : Int) : List ℚ :=
  ((trueRows s noff).filter (fun r => decide (r.1 ≤ ref))).map Prod.snd

/-! ## Fine-tier lemmas -/

/-- In a list sorted by nondecreasing timestamp, every element's timestamp
is at most the last element's. -/
theorem fst_le_getLast :
    ∀ (l : List (Int × ℚ)), l.Pairwise (fun a b => a.1 ≤ b.1) →
      ∀ (hne : l ≠ []) (q : Int × ℚ), q ∈ l → q.1 ≤ (l.getLast hne).1 := by
  intro l
  induction l with
  | nil => intro _ hne; exact absurd rfl hne
  | cons a t ih =>
    intro h hne q hq
    rcases List.pairwise_cons.mp h with ⟨ha, ht⟩
    cases t with
    | nil =>
      rcases List.mem_singleton.mp hq with rfl
      simp
    | cons b t2 =>
      have hne2 : b :: t2 ≠ [] := List.cons_ne_nil b t2
      rw [List.getLast_cons hne2]
      rcases List.mem_cons.mp hq with rfl | hq2
      · exact ha _ (List.getLast_mem hne2)
      · exact ih ht hne2 q hq2

/-- C3 (amended): for every hourly series whose normalized rows are in
nondecreasing timestamp order (as the provider returns them) and contain
at least one row at or before the reference value, the fine tier selects a
row of maximal timestamp among those at or before the reference, returns
its closing price, and the fallback tier is never consulted (the result is
the same for every `daily` argument).  Maximality gives in particular
that a row lying exactly at the reference instant wins over all earlier
ones. -/
theorem C3_fine_tier (s : HSeries) (daily : Except Unit (List ℚ)) (ref : Int)
    (hsort : (normalizeRows s).Pairwise (fun a b => a.1 ≤ b.1))
    (r0 : Int × ℚ) (hr0 : r0 ∈ normalizeRows s) (h0 : r0.1 ≤ ref) :
    ∃ r : Int × ℚ, lastAtOrBefore (normalizeRows s) ref = some r ∧
      r ∈ normalizeRows s ∧ r.1 ≤ ref ∧
      (∀ q ∈ normalizeRows s, q.1 ≤ ref → q.1 ≤ r.1) ∧
      price_at_5pm_ct (.ok s) daily ref = some r.2 := by
  have hmem : r0 ∈ (normalizeRows s).filter (fun r => decide (r.1 ≤ ref)) :=
    List.mem_filter.mpr ⟨hr0, by simpa using h0⟩
  have hne : (normalizeRows s).filter (fun r => decide (r.1 ≤ ref)) ≠ [] :=
    List.ne_nil_of_mem hmem
  have hsl := List.Pairwise.filter (R := fun a b : Int × ℚ => a.1 ≤ b.1)
    (fun r => decide (r.1 ≤ ref)) hsort
  have hlast := List.getLast?_eq_getLast_of_ne_nil hne
  refine ⟨((normalizeRows s).filter (fun r => decide (r.1 ≤ ref))).getLast hne,
    ?_, ?_, ?_, ?_, ?_⟩
  · simpa only [lastAtOrBefore] using hlast
  · exact (List.mem_filter.mp (List.getLast_mem hne)).1
  · simpa using (List.mem_filter.mp (List.getLast_mem hne)).2
  · intro q hq hqle
    exact fst_le_getLast _ hsl hne q (List.mem_filter.mpr ⟨hq, by simpa using hqle⟩)
  · simp only [price_at_5pm_ct, hourlyRows, ref_naive_utc, lastAtOrBefore, hlast]

/-- Witness for `C3_fine_tier`: singleton series `[(1, 5)]`, reference 2. -/
theorem C3_fine_tier_witness :
    ∃ r : Int × ℚ, lastAtOrBefore (normalizeRows (.naive [(1, 5)])) 2 = some r ∧
      r ∈ normalizeRows (.naive [(1, 5)]) ∧ r.1 ≤ 2 ∧
      (∀ q ∈ normalizeRows (.naive [(1, 5)]), q.1 ≤ 2 → q.1 ≤ r.1) ∧
      price_at_5pm_ct (.ok (.naive [(1, 5)])) (.error ()) 2 = some r.2 :=
  C3_fine_tier (.naive [(1, 5)]) (.error ()) 2 (by simp [normalizeRows])
    (1, 5) (by simp [normalizeRows]) (by decide)

/-- C3 counterexample: with the (unsorted) series `[(10, 2), (5, 3)]` and
reference 10, the code returns the close 3 of the positionally last
filtered row (timestamp 5), not the close 2 of the row with the latest
timestamp at or before the reference (timestamp 10). -/
theorem C3_fine_tier_cex :
    price_at_5pm_ct (.ok (.naive [(10, 2), (5, 3)])) (.ok []) 10 = some 3 ∧
      price_at_5pm_ct (.ok (.naive [(10, 2), (5, 3)])) (.ok []) 10 ≠ some 2 := by
  constructor
  · rfl
  · decide

/-- C4 (confirmed): whenever the fine tier selects no row, the daily
fallback returns `None` for fewer than 2 daily bars and the second-to-last
daily close (`iloc[-2]`) otherwise. -/
theorem C4_coarse_tier (hourly : Except Unit HSeries) (ds : List ℚ) (ref : Int)
    (hfine : lastAtOrBefore (hourlyRows hourly) (ref_naive_utc ref) = none) :
    price_at_5pm_ct hourly (.ok ds) ref =
      if ds.length < 2 then none else ds[ds.length - 2]? := by
  simp only [price_at_5pm_ct, hfine]

/-- Witness for `C4_coarse_tier`: failed hourly fetch, daily closes
`[3, 4, 5]` — the result is the second-to-last close 4. -/
theorem C4_coarse_tier_witness :
    price_at_5pm_ct (.error ()) (.ok [3, 4, 5]) 0 = some 4 := by
  rw [C4_coarse_tier (.error ()) [3, 4, 5] 0 rfl]
  rfl

/-- C5 (confirmed): a raised hourly fetch behaves exactly like an empty
hourly frame; once the fine tier has selected nothing, a raised daily
fetch and an empty daily frame both give `Unavailable` (`None`); in
particular when both fetches raise the result is `None`.  The embedding is
a total function: no input propagates an exception. -/
theorem C5_exception_handling :
    (∀ (daily : Except Unit (List ℚ)) (ref : Int),
        price_at_5pm_ct (.error ()) daily ref =
          price_at_5pm_ct (.ok (.naive [])) daily ref) ∧
      (∀ (hourly : Except Unit HSeries) (ref : Int),
          lastAtOrBefore (hourlyRows hourly) (ref_naive_utc ref) = none →
            price_at_5pm_ct hourly (.error ()) ref = none ∧
              price_at_5pm_ct hourly (.ok []) ref = none) ∧
      (∀ ref : Int, price_at_5pm_ct (.error ()) (.error ()) ref = none) := by
  refine ⟨fun _ _ => rfl, ?_, fun _ => rfl⟩
  intro hourly ref hfine
  refine ⟨?_, ?_⟩
  · simp only [price_at_5pm_ct, hfine]
  · simp only [price_at_5pm_ct, hfine]
    rfl

/-- Witness for `C5_exception_handling`: an hourly series whose single row
lies after the reference, so the fine tier selects nothing. -/
theorem C5_exception_handling_witness :
    price_at_5pm_ct (.ok (.naive [(5, 1)])) (.error ()) 0 = none ∧
      price_at_5pm_ct (.ok (.naive [(5, 1)])) (.ok []) 0 = none :=
  C5_exception_handling.2.1 (.ok (.naive [(5, 1)])) 0 rfl

/-- C6 (amended): for a tz-aware series the normalized timestamps are the
rows' absolute instants whatever the display offset, so the fine tier's
comparison selects exactly the rows truly at or before the reference
instant; the selection the code makes is the last-of-filter over these
normalized rows.  A tz-naive series, however, is used as-is: its selection
agrees with the true instants only under the convention that its wall
values are denominated in UTC (`noff = 0`). -/
theorem C6_normalization :
    (∀ (off noff ref : Int) (rows : List (Int × ℚ)),
        selectedCloses (.aware off rows) ref =
          trueSelectedCloses (.aware off rows) noff ref) ∧
      (∀ (ref : Int) (rows : List (Int × ℚ)),
          selectedCloses (.naive rows) ref =
            trueSelectedCloses (.naive rows) 0 ref) ∧
      (∀ (s : HSeries) (ref : Int),
          (lastAtOrBefore (normalizeRows s) ref).map Prod.snd =
            (selectedCloses s ref).getLast?) := by
  refine ⟨fun _ _ _ _ => rfl, ?_, ?_⟩
  · intro ref rows
    simp [selectedCloses, trueSelectedCloses, trueRows, normalizeRows]
  · intro s ref
    simp [lastAtOrBefore, selectedCloses]

/-- C6 counterexample: a tz-naive series whose wall values were expressed
in CDT (offset -18000).  Its single row has raw value 64800 (18:00) but
denotes the instant 82800 (23:00 UTC), after the reference 79200
(22:00 UTC); the code nonetheless selects it, because naive timestamps are
compared raw instead of being normalized to absolute instants. -/
theorem C6_normalization_cex :
    selectedCloses (.naive [(64800, 1)]) 79200 ≠
      trueSelectedCloses (.naive [(64800, 1)]) (-18000) 79200 := by
  decide

/-! ## Return calculation (lines 270-284 of `main`)

Prices are modelled as exact rationals.  Python's `round(x, 2)` is
round-half-to-even at two decimal places; on the rational values of every
concrete case considered here the binary floating-point computation and
the exact rational computation round identically. -/

/-- Round-half-to-even to the nearest integer (the rounding mode of
Python's built-in `round`). -/
def roundHalfEven (q : ℚ) : Int :=
  if q - ⌊q⌋ < 1/2 then ⌊q⌋
  else if 1/2 < q - ⌊q⌋ then ⌊q⌋ + 1
  else if ⌊q⌋ % 2 = 0 then ⌊q⌋ else ⌊q⌋ + 1

/-- Python's `round(q, 2)`. -/
def round2 (q : ℚ) : ℚ := (roundHalfEven (q * 100) : ℚ) / 100

/-- Embedding of lines 273-277: the per-ticker return.  `none` stands for
Python's `None` (and for the rendered empty cell); `some x` stands for the
rendered string `f"{x}%"` — the percent marker is attached to every
present value.  The guard is `p_5pm is None or p_now is None or
p_5pm <= 0`; otherwise
`round(((p_now - p_5pm) / p_5pm) * 100, 2)` is produced. -/
def computeReturn : Option ℚ → Option ℚ → Option ℚ
  | none, _ => none
  | some _, none => none
  | some p5, some pn =>
    if p5 ≤ 0 then none else some (round2 ((pn - p5) / p5 * 100))

/-- C2 (confirmed): Unavailable reference, Unavailable current, or
reference ≤ 0 each give Absent; an available reference > 0 gives the
rounded percentage; `compute(100, 110) = 10%` and
`compute(200, 190) = -5%`. -/
theorem C2_return_calculator :
    (∀ c, computeReturn none c = none) ∧
      (∀ r, computeReturn r none = none) ∧
      (∀ p c : ℚ, p ≤ 0 → computeReturn (some p) (some c) = none) ∧
      (∀ c : ℚ, computeReturn (some 0) (some c) = none) ∧
      (∀ p c : ℚ, 0 < p →
          computeReturn (some p) (some c) = some (round2 ((c - p) / p * 100))) ∧
      computeReturn (some 100) (some 110) = some 10 ∧
      computeReturn (some 200) (some 190) = some (-5) := by
  have hle : ∀ p c : ℚ, p ≤ 0 → computeReturn (some p) (some c) = none := by
    intro p c h
    simp only [computeReturn, if_pos h]
  have hgt : ∀ p c : ℚ, 0 < p →
      computeReturn (some p) (some c) = some (round2 ((c - p) / p * 100)) := by
    intro p c h
    simp only [computeReturn, if_neg (not_le.mpr h)]
  refine ⟨fun _ => rfl, fun r => ?_, hle, fun c => hle 0 c le_rfl, hgt, ?_, ?_⟩
  · cases r <;> rfl
  · rw [hgt 100 110 (by norm_num)]
    norm_num [round2, roundHalfEven]
  · rw [hgt 200 190 (by norm_num)]
    norm_num [round2, roundHalfEven]

/-- Witness for `C2_return_calculator`: a non-positive reference yields
Absent; a positive reference yields the rounded percentage. -/
theorem C2_return_calculator_witness :
    computeReturn (some (-1)) (some 7) = none ∧
      computeReturn (some 4) (some 5) = some (round2 ((5 - 4) / 4 * 100)) :=
  ⟨C2_return_calculator.2.2.1 (-1) 7 (by norm_num),
    C2_return_calculator.2.2.2.2.1 4 5 (by norm_num)⟩

/-- C10 (confirmed): the non-positive guard tests only the reference
price; a positive reference with a non-positive current price still
produces the numeric rounded percentage, never Absent. -/
theorem C10_guard_reference_only (p c : ℚ) (hp : 0 < p) (_hc : c ≤ 0) :
    computeReturn (some p) (some c) = some (round2 ((c - p) / p * 100)) ∧
      computeReturn (some p) (some c) ≠ none := by
  have h : computeReturn (some p) (some c) = some (round2 ((c - p) / p * 100)) := by
    simp only [computeReturn, if_neg (not_le.mpr hp)]
  exact ⟨h, by rw [h]; exact Option.some_ne_none _⟩

/-- Witness for `C10_guard_reference_only` at reference 100, current 0. -/
theorem C10_guard_reference_only_witness :
    computeReturn (some 100) (some 0) = some (round2 ((0 - 100) / 100 * 100)) ∧
      computeReturn (some 100) (some 0) ≠ none :=
  C10_guard_reference_only 100 0 (by norm_num) le_rfl

/-! ## The per-ticker pipeline (`main`, lines 270-284) -/

/-- Embedding of `current_price` (lines 70-78): latest daily close;
exceptions and empty frames give `None`. -/
def current_price : Except Unit (List ℚ) → Option ℚ
  | .error _ => none
  | .ok ds => if ds.isEmpty then none else ds.getLast?

/-- Embedding of `ticker_name` (lines 81-92): the provider's metadata is
`some name` when a `shortName`/`longName`/`contractSymbol` entry exists,
`none` when all are missing; exceptions and missing entries fall back to
the raw ticker string. -/
def ticker_name (t : String) : Except Unit (Option String) → String
  | .error _ => t
  | .ok none => t
  | .ok (some s) => s

/-- One output row (the dict appended at lines 278-284). -/
structure Row where
  ticker : String
  name : String
  price_5pm_ct : Option ℚ
  price_current : Option ℚ
  return_since_5pm_ct : Option ℚ

/-- The provider: per ticker, the hourly fetch and daily fetch consumed by
`price_at_5pm_ct`, the daily fetch consumed by `current_price`, and the
metadata lookup of `ticker_name` (separate network calls, modelled as
separate fields). -/
structure Env where
  hourly : String → Except Unit HSeries
  dailyHist : String → Except Unit (List ℚ)
  dailyCur : String → Except Unit (List ℚ)
  info : String → Except Unit (Option String)

/-- The body of the `for ticker in tickers` loop (lines 270-284). -/
def buildRow (env : Env) (ref : Int) (t : String) : Row :=
  { ticker := t
    name := ticker_name t (env.info t)
    price_5pm_ct := (price_at_5pm_ct (env.hourly t) (env.dailyHist t) ref).map round2
    price_current := (current_price (env.dailyCur t)).map round2
    return_since_5pm_ct :=
      computeReturn (price_at_5pm_ct (env.hourly t) (env.dailyHist t) ref)
        (current_price (env.dailyCur t)) }

/-- The whole loop: one row per ticker, in input order. -/
def buildRows (env : Env) (ref : Int) (tickers : List String) : List Row :=
  tickers.map (buildRow env ref)

/-- C9 (confirmed): the loop is total and produces exactly one row per
input ticker in the original order; a ticker whose provider calls all fail
gets a row with absent price and return fields; each row depends only on
the provider's responses for its own ticker, so one ticker's failure
cannot affect another's row. -/
theorem C9_pipeline :
    (∀ (env : Env) (ref : Int) (tickers : List String),
        (buildRows env ref tickers).length = tickers.length) ∧
      (∀ (env : Env) (ref : Int) (tickers : List String),
          (buildRows env ref tickers).map Row.ticker = tickers) ∧
      (∀ (env : Env) (ref : Int) (t : String),
          env.hourly t = .error () → env.dailyHist t = .error () →
            env.dailyCur t = .error () →
              (buildRow env ref t).price_5pm_ct = none ∧
                (buildRow env ref t).price_current = none ∧
                (buildRow env ref t).return_since_5pm_ct = none) ∧
      (∀ (e1 e2 : Env) (ref : Int) (t : String),
          e1.hourly t = e2.hourly t → e1.dailyHist t = e2.dailyHist t →
            e1.dailyCur t = e2.dailyCur t → e1.info t = e2.info t →
              buildRow e1 ref t = buildRow e2 ref t) := by
  refine ⟨?_, ?_, ?_, ?_⟩
  · intro env ref tickers
    simp [buildRows]
  · intro env ref tickers
    simp [buildRows, List.map_map]
    exact List.map_id tickers
  · intro env ref t h1 h2 h3
    refine ⟨?_, ?_, ?_⟩ <;>
      simp [buildRow, h1, h2, h3, price_at_5pm_ct, current_price, computeReturn,
        hourlyRows, lastAtOrBefore]
  · intro e1 e2 ref t h1 h2 h3 h4
    simp only [buildRow, h1, h2, h3, h4]

/-- A provider for which every call raises. -/
def envFail : Env :=
  ⟨fun _ => .error (), fun _ => .error (), fun _ => .error (), fun _ => .error ()⟩

/-- Witness for `C9_pipeline`: under the always-failing provider, the row
of ticker "ESZ5" has absent prices and return, and the row is stable
across providers that agree on that ticker. -/
theorem C9_pipeline_witness :
    ((buildRow envFail 0 "ESZ5").price_5pm_ct = none ∧
        (buildRow envFail 0 "ESZ5").price_current = none ∧
        (buildRow envFail 0 "ESZ5").return_since_5pm_ct = none) ∧
      buildRow envFail 0 "ESZ5" = buildRow envFail 0 "ESZ5" :=
  ⟨C9_pipeline.2.2.1 envFail 0 "ESZ5" rfl rfl rfl,
    C9_pipeline.2.2.2 envFail envFail 0 "ESZ5" rfl rfl rfl rfl⟩

end OvernightReturns
